import Mathlib

/-!
Verification of the tree-compensation and classification subsystem of the
TenderBot catalog-generation pipeline
(`src/catalog_generation/compensation/{classifier,tools,agent,orchestrator}.py`).

The nested catalog representation and the operations on it are embedded
shallowly: Python dicts become a record-like inductive with the fields the
subsystem reads (`name`, `category`, `children`) plus an association list for
the auxiliary fields that are passed through verbatim; stateful code becomes
explicit value passing; fallible code returns `Option` or a result record
carrying `success`/`error` fields, mirroring the dictionaries the source
returns.
-/

namespace TenderBot


/-- A catalog node (spec §3).  `name` is required and non-empty in the data
model, so it is embedded as a plain `String` (the `node.get("name", ...)` defaults of the source, which are never exercised on inputs satisfying the
data model).  `category` is `none` when the key is absent; the source treats
an absent key and a `null` value identically in every operation modelled
here (`dict.get` with a default, membership in the valid-category set), so the
two are conflated.  `extra` holds the auxiliary key/value pairs that the core
never interprets, in insertion order.  `children` is `none` when the key is
absent. -/
inductive CatalogNode : Type where
  | mk : String → Option String → List (String × String) → Option (List CatalogNode) → CatalogNode

def CatalogNode.name : CatalogNode → String
  | .mk n _ _ _ => n

def CatalogNode.category : CatalogNode → Option String
  | .mk _ c _ _ => c

def CatalogNode.extra : CatalogNode → List (String × String)
  | .mk _ _ e _ => e

def CatalogNode.children : CatalogNode → Option (List CatalogNode)
  | .mk _ _ _ ch => ch

theorem CatalogNode.sizeOf_children_lt (n : CatalogNode) :
    sizeOf (n.children.getD []) < sizeOf n := by
  rcases n with ⟨nm, cat, ex, ch⟩
  rcases ch with _ | l
  all_goals simp [CatalogNode.children, Option.getD]
  all_goals omega

theorem sizeOf_getD_lt (o : Option (List CatalogNode)) : sizeOf (o.getD []) < 1 + sizeOf o := by
  rcases o with _ | l
  all_goals simp [Option.getD]
  all_goals omega

/-- The five recognised category labels
(`CatalogClassifier.classify_node`, classifier.py line 37). -/
def valid_categories : List String := ["business", "technical", "pricing", "mixed", "unknown"]

/-- `CatalogClassifier.classify_node` (classifier.py lines 23-38): read the
`category` field, defaulting to `"unknown"` when absent; any value outside the
five recognised labels also resolves to `"unknown"`. -/
def classify_node (node : CatalogNode) : String :=
  match node.category with
  | none => "unknown"
  | some c => if c ∈ valid_categories then c else "unknown"

/-- The inclusion condition of `CatalogClassifier.extract_view`
(classifier.py lines 64-68): exact match, `"mixed"`, or `"unknown"`. -/
def should_include (node : CatalogNode) (target_type : String) : Bool :=
  classify_node node == target_type || classify_node node == "mixed"
    || classify_node node == "unknown"

/-- `CatalogClassifier.extract_view` (classifier.py lines 40-92).  For each
included node a copy is built: all non-`children` fields are carried over
verbatim and `children` is set to the recursive filter of the children of the node.
The three `children` branches of the source (absent, filtered-to-empty, non-empty)
all produce exactly that value, with absent treated as the empty list. -/
def extract_view (struct : List CatalogNode) (target_type : String) : List CatalogNode :=
  match struct with
  | [] => []
  | node :: rest =>
    if should_include node target_type then
      CatalogNode.mk node.name node.category node.extra
          (some (extract_view (node.children.getD []) target_type))
        :: extract_view rest target_type
    else
      extract_view rest target_type
termination_by sizeOf struct
decreasing_by
  all_goals first
    | exact Nat.lt_trans (CatalogNode.sizeOf_children_lt node) (by simp; omega)
    | (simp; try omega)

/-- The copy that `extract_view` emits for an included node. -/
def copy_node (node : CatalogNode) (target_type : String) : CatalogNode :=
  CatalogNode.mk node.name node.category node.extra
    (some (extract_view (node.children.getD []) target_type))

/-- The result of `CatalogClassifier.classify_and_split`: the three views. -/
structure SplitViews where
  business : List CatalogNode
  technical : List CatalogNode
  pricing : List CatalogNode

/-- `CatalogClassifier.classify_and_split` (classifier.py lines 94-115). -/
def classify_and_split (compensated : List CatalogNode) : SplitViews :=
  { business := extract_view compensated "business"
    technical := extract_view compensated "technical"
    pricing := extract_view compensated "pricing" }

mutual

/-- `UpdateNodeCategoryTool._deep_copy` (tools.py lines 214-231): rebuild the
node with `name` and `category` carried over (`category` is set from
`node.get("category")`, identical to the input value under the absent/null
conflation), `children` always present — the recursive copy of a non-empty
children list, the empty list otherwise — and the remaining fields preserved
in order. -/
def deep_copy (node : CatalogNode) : CatalogNode :=
  match node with
  | .mk n c e none => .mk n c e (some [])
  | .mk n c e (some l) => .mk n c e (some (deep_copy_list l))
termination_by sizeOf node
decreasing_by
  simp
  omega

def deep_copy_list (l : List CatalogNode) : List CatalogNode :=
  match l with
  | [] => []
  | c :: cs => deep_copy c :: deep_copy_list cs
termination_by sizeOf l
decreasing_by
  all_goals simp
  all_goals omega

end

mutual

/-- `UpdateNodeCategoryTool._annotate_node_and_children` (tools.py lines
268-281): set `category` on the node and recursively on every child; the
`children` field itself is left as it was. -/
def annotate_node_and_children (node : CatalogNode) (category : String) : CatalogNode :=
  match node with
  | .mk n _ e none => .mk n (some category) e none
  | .mk n _ e (some l) => .mk n (some category) e (some (annotate_list l category))
termination_by sizeOf node
decreasing_by
  simp
  omega

def annotate_list (l : List CatalogNode) (category : String) : List CatalogNode :=
  match l with
  | [] => []
  | c :: cs => annotate_node_and_children c category :: annotate_list cs category
termination_by sizeOf l
decreasing_by
  all_goals simp
  all_goals omega

end


/-- Python `str.split` with the one-character separator used for node paths
(`path.split("/")`, tools.py line 247): split at every separator occurrence,
keeping empty segments, with the empty string yielding a single empty
segment. -/
def split_chars (cs : List Char) (sep : Char) : List (List Char) :=
  match cs with
  | [] => [[]]
  | c :: rest =>
    match split_chars rest sep with
    | [] => [[]]
    | w :: ws => if c = sep then [] :: w :: ws else (c :: w) :: ws

/-- `node_path.split("/")` as a list of segment strings. -/
def path_split (path : String) : List String :=
  (split_chars path.toList '/').map (fun w => String.mk w)

/-- The inner search of `UpdateNodeCategoryTool._find_node_by_path` (tools.py
lines 255-261): scan the children in order and take the first whose `name`
equals the path segment. -/
def find_child (children : List CatalogNode) (part : String) : Option CatalogNode :=
  match children with
  | [] => none
  | c :: cs => if c.name = part then some c else find_child cs part

/-- The segment loop of `UpdateNodeCategoryTool._find_node_by_path` (tools.py
lines 247-266): every segment equal to `"root"` is skipped (the `continue`
fires at any position, not only at the head); otherwise descend into the
first child with a matching name, failing if there is none.  The source only
searches when `children` is present and non-empty; `find_child` on the empty
list returns `none`, so `getD []` models both the absent and the empty case. -/
def find_walk (current : CatalogNode) (parts : List String) : Option CatalogNode :=
  match parts with
  | [] => some current
  | part :: rest =>
    if part = "root" then find_walk current rest
    else
      match find_child (current.children.getD []) part with
      | some child => find_walk child rest
      | none => none

/-- `UpdateNodeCategoryTool._find_node_by_path` (tools.py lines 233-266):
an empty path or the literal `"root"` resolves to the structure itself;
otherwise walk the slash-separated segments. -/
def find_node_by_path (struct : CatalogNode) (path : String) : Option CatalogNode :=
  if path = "" ∨ path = "root" then some struct
  else find_walk struct (path_split path)

/-- Replace the `children` field of a node (the functional counterpart of
the in-place mutation of the children list in the source). -/
def set_children (node : CatalogNode) (ch : Option (List CatalogNode)) : CatalogNode :=
  match node with
  | .mk n c e _ => .mk n c e ch

/-- One step of the find-and-update walk on a children list: locate the first
child named `part` (exactly as `find_child` does) and replace it by the result
of `go`; siblings before and after it are kept as they are.  Returns the new
list and the updated target node. -/
def update_child (children : List CatalogNode) (part : String)
    (go : CatalogNode → Option (CatalogNode × CatalogNode)) :
    Option (List CatalogNode × CatalogNode) :=
  match children with
  | [] => none
  | c :: cs =>
    if c.name = part then
      match go c with
      | none => none
      | some (c', t) => some (c' :: cs, t)
    else
      match update_child cs part go with
      | none => none
      | some (cs', t) => some (c :: cs', t)

/-- The functional rendering of the find-then-mutate phase of
`UpdateNodeCategoryTool.run`: the source resolves `node_path` to a reference inside the copied
structure and mutates it in place; here the same walk rebuilds the structure
with `f` applied to the resolved node, returning the new structure and the
updated target.  `find_walk_walk_update` below proves the walk resolves
exactly as `_find_node_by_path` does. -/
def walk_update (current : CatalogNode) (parts : List String)
    (f : CatalogNode → CatalogNode) : Option (CatalogNode × CatalogNode) :=
  match parts with
  | [] => some (f current, f current)
  | part :: rest =>
    if part = "root" then walk_update current rest f
    else
      match update_child (current.children.getD []) part (fun c => walk_update c rest f) with
      | none => none
      | some (l', t) => some (set_children current (some l'), t)

/-- The dictionary returned by `UpdateNodeCategoryTool.run`: absent keys are
`none`. -/
structure UpdateResult where
  success : Bool
  updated_structure : Option CatalogNode
  message : Option String
  error : Option String

/-- `UpdateNodeCategoryTool.run` (tools.py lines 171-212): reject a category
outside business/technical/pricing; deep-copy the structure; resolve the path
(failure returns an error result); annotate the target and all its
descendants; report a message quoting the name of the target.  In the model `name`
is always present, so the `target_node.get("name", "unknown")` default of
the source is never exercised. -/
def update_node_category_run (struct : CatalogNode) (node_path category : String) :
    UpdateResult :=
  if category ∉ (["business", "technical", "pricing"] : List String) then
    { success := false, updated_structure := none, message := none,
      error := some ("无效的类别: " ++ category ++ ",必须是 business/technical/pricing 之一") }
  else
    let copied := deep_copy struct
    let walked :=
      if node_path = "" ∨ node_path = "root" then
        walk_update copied [] (fun n => annotate_node_and_children n category)
      else
        walk_update copied (path_split node_path) (fun n => annotate_node_and_children n category)
    match walked with
    | none =>
      { success := false, updated_structure := none, message := none,
        error := some ("未找到节点: " ++ node_path) }
    | some (s', t) =>
      { success := true, updated_structure := some s',
        message := some ("已将节点 \x27" ++ t.name ++ "\x27 及其子节点标注为 " ++ category),
        error := none }

/-- A one-hole context frame: the own fields of an ancestor together with the
siblings to the left and right of the hole. -/
structure Frame where
  name : String
  category : Option String
  extra : List (String × String)
  left : List CatalogNode
  right : List CatalogNode

/-- Plug a subtree into a stack of frames (innermost frame first). -/
def plug (target : CatalogNode) (frames : List Frame) : CatalogNode :=
  match frames with
  | [] => target
  | fr :: rest =>
    plug (CatalogNode.mk fr.name fr.category fr.extra (some (fr.left ++ target :: fr.right))) rest

mutual

/-- A node is normalized when `children` is present (possibly empty) at every
node; the spec data model declares an absent `children` and an empty one
equivalent, and normalized structures are exactly the fixed points of
`deep_copy`. -/
def normalized (node : CatalogNode) : Bool :=
  match node with
  | .mk _ _ _ none => false
  | .mk _ _ _ (some l) => normalized_list l
termination_by sizeOf node
decreasing_by
  simp
  omega

def normalized_list (l : List CatalogNode) : Bool :=
  match l with
  | [] => true
  | c :: cs => normalized c && normalized_list cs
termination_by sizeOf l
decreasing_by
  all_goals simp
  all_goals omega

end

mutual

/-- Every node of the tree carries exactly the given category. -/
def all_category (node : CatalogNode) (category : String) : Bool :=
  match node with
  | .mk _ c _ none => c == some category
  | .mk _ c _ (some l) => c == some category && all_category_list l category
termination_by sizeOf node
decreasing_by
  simp
  omega

def all_category_list (l : List CatalogNode) (category : String) : Bool :=
  match l with
  | [] => true
  | c :: cs => all_category c category && all_category_list cs category
termination_by sizeOf l
decreasing_by
  all_goals simp
  all_goals omega

end

/-- Every node of the forest, recursively, carries a `children` field that is
present (and hence, by the type of `CatalogNode`, a sequence — the source only
ever stores lists there, never `null`). -/
def children_present (l : List CatalogNode) : Bool :=
  match l with
  | [] => true
  | n :: rest =>
    n.children.isSome && children_present (n.children.getD []) && children_present rest
termination_by sizeOf l
decreasing_by
  all_goals first
    | exact Nat.lt_trans (CatalogNode.sizeOf_children_lt _) (by simp; omega)
    | (simp; try omega)

/-- A JSON value, for the code paths that inspect arbitrary parsed JSON
(the validator and the template table). -/
inductive JValue : Type where
  | str : String → JValue
  | num : Int → JValue
  | bool : Bool → JValue
  | null : JValue
  | arr : List JValue → JValue
  | obj : List (String × JValue) → JValue

/-- Python `str()` as used to interpolate a node name into diagnostic paths
(agent.py line 446).  Containers render in Python `repr` style; no claim
inspects a path built from a container-valued name, so fixed placeholders
stand in for them. -/
def jstr : JValue → String
  | .str s => s
  | .num n => toString n
  | .bool b => if b then "True" else "False"
  | .null => "None"
  | .arr _ => "[...]"
  | .obj _ => "..."

theorem sizeOf_lookup_lt {kvs : List (String × JValue)} {k : String} {v : JValue}
    (h : kvs.lookup k = some v) : sizeOf v < sizeOf kvs := by
  induction kvs with
  | nil => simp [List.lookup] at h
  | cons p rest ih =>
    rcases p with ⟨k', v'⟩
    rw [List.lookup] at h
    split at h
    · cases h
      simp
      omega
    · have := ih h
      simp
      omega

mutual

/-- The recursive `validate_node` of `CompensationReActAgent._validate_structure`
(agent.py lines 430-447): a non-object is an error; a missing `name` key is an
error; a `children` key must hold an array, and validation recurses into the
children regardless of earlier errors at the node. -/
def validate_node (node : JValue) (path : String) : List String :=
  match node with
  | .obj kvs =>
    (if (kvs.lookup "name").isSome then [] else [path ++ ": 缺少 name 字段"])
      ++ (match h : kvs.lookup "children" with
          | some (.arr cs) => validate_children cs (kvs.lookup "name") path 0
          | some _ => [path ++ ": children 必须是数组"]
          | none => [])
  | _ => [path ++ ": 节点必须是对象"]
termination_by sizeOf node
decreasing_by
  have := sizeOf_lookup_lt h
  simp at this ⊢
  omega

/-- The child loop of `validate_node` (agent.py lines 444-447): the diagnostic
path for the i-th child appends the name of the PARENT node — falling back to
`node{i}` with the child index when the parent has no name — exactly as the
source f-string does. -/
def validate_children (cs : List JValue) (parentName : Option JValue) (path : String)
    (i : Nat) : List String :=
  match cs with
  | [] => []
  | c :: rest =>
    validate_node c
        (path ++ "/" ++ (match parentName with
                         | some v => jstr v
                         | none => "node" ++ toString i))
      ++ validate_children rest parentName path (i + 1)
termination_by sizeOf cs
decreasing_by
  all_goals simp
  all_goals omega

end

/-- `CompensationReActAgent._validate_structure` (agent.py lines 415-456).
The source accumulates error strings and returns their newline join, or
`None` when there are none (`None` meaning valid); the model returns the
error list itself, with the two early returns (non-array input, empty input)
as singleton lists, so the empty list means valid. -/
def validate_structure (struct : JValue) : List String :=
  match struct with
  | .arr [] => ["结构不能为空"]
  | .arr nodes =>
    (nodes.enum.map (fun p => validate_node p.2 ("root/node" ++ toString p.1))).flatten
  | _ => ["结构必须是数组"]

/-- The dictionary returned by `GetDefaultTemplateTool.run`: absent keys are
`none`. -/
structure TemplateToolResult where
  success : Bool
  module : Option String
  template : Option JValue
  insert_position_hint : Option JValue
  error : Option String

/-- `GetDefaultTemplateTool.run` (tools.py lines 52-82) over the loaded
template table.  The table itself comes from
`jr_tenderbot_mcp/mcp-file/data/default_templates.json`, a data file that is
not part of the sources, so it is a parameter.  On a hit the insert-position
hint is read from the template with default `"after_all"`; the source would
raise on a non-object template, which no claim exercises, so the hint is
`none` there. -/
def get_default_template_run (templates : List (String × JValue)) (module_type : String) :
    TemplateToolResult :=
  match templates.lookup (module_type ++ "_template") with
  | none =>
    { success := false, module := none, template := none, insert_position_hint := none,
      error := some ("未找到模块类型 \x27" ++ module_type ++ "\x27 的模板") }
  | some t =>
    { success := true, module := some module_type, template := some t,
      insert_position_hint :=
        (match t with
         | .obj kvs => some ((kvs.lookup "insert_position_hint").getD (.str "after_all"))
         | _ => none),
      error := none }

/-- `CompensationOrchestrator._get_default_structure` (orchestrator.py lines
94-105): exactly three provider calls, in the order business, technical,
pricing.  The source indexes each result dict with `["template"]`, which
raises `KeyError` when the provider reported failure — modelled as `none`. -/
def get_default_structure (templates : List (String × JValue)) : Option (List JValue) :=
  match (get_default_template_run templates "business").template,
        (get_default_template_run templates "technical").template,
        (get_default_template_run templates "pricing").template with
  | some b, some t, some p => some [b, t, p]
  | _, _, _ => none

/-- The dictionary returned by `CompensationOrchestrator.run`. -/
structure OrchestratorResult where
  compensated_structure : List JValue
  source : String
  log : List String

/-- `CompensationOrchestrator.run` (orchestrator.py lines 41-92), with the
ReAct agent as an abstract parameter returning a compensated structure and a
log (its reasoning backend is an external collaborator).  `extraction` is
`none` when the caller passes Python `None` and `some l` for a list; Python
`not extraction_result or len(extraction_result) == 0` is true exactly for
`none` and `some []`.  The outer `Option` is `none` exactly when
default-template synthesis raises. -/
def orchestrator_run (templates : List (String × JValue))
    (agent : List JValue → List JValue × List String)
    (extraction : Option (List JValue)) : Option OrchestratorResult :=
  let is_empty := match extraction with
                  | none => true
                  | some l => l.isEmpty
  let node_count := (extraction.getD []).length
  let log0 := ["检测结果: " ++ (if is_empty then "为空"
                                else "有 " ++ toString node_count ++ " 个节点")]
  if is_empty then
    match get_default_structure templates with
    | none => none
    | some s =>
      some { compensated_structure := s, source := "default_template",
             log := log0 ++ ["提取结果为空,使用默认三段式模板"] }
  else
    let r := agent (extraction.getD [])
    some { compensated_structure := r.1, source := "agent",
           log := (log0 ++ ["提取结果不为空,交给 ReAct Agent 处理"]) ++ r.2 }

/-- A role-tagged chat message. -/
structure Message where
  role : String
  content : String

/-- The dictionary returned by `CompensationReActAgent.run`, extended with the
transcript of raw backend responses: the source prints every response to its
log sink, one per loop iteration, and recording them lets theorems count the
backend calls. -/
structure AgentResult (σ : Type) where
  compensated_structure : σ
  log : List String
  trace : List String

/-- Python regex `\w` (ASCII approximation; the `re` module used by the source is
Unicode-aware, which only widens the set of parseable action names and is
irrelevant to every claim, each of which constrains the parser through this
model). -/
def word_char (c : Char) : Bool := c.isAlphanum || c = '_'

/-- The `Action:` half of `CompensationReActAgent._parse_action` (agent.py
line 312): `re.search` with pattern `Action:` followed by optional whitespace
and one or more word characters.  The scan moves left to right and, like the
regex engine, falls through to a later `Action:` occurrence when no word
character follows the current one. -/
def parse_action_name_chars (cs : List Char) : Option String :=
  match cs with
  | [] => none
  | _ :: rest =>
    if "Action:".toList.isPrefixOf cs then
      let word := ((cs.drop 7).dropWhile (fun c => c.isWhitespace)).takeWhile word_char
      if word.isEmpty then parse_action_name_chars rest
      else some (String.mk word)
    else parse_action_name_chars rest

/-- The action-name extraction of `_parse_action` on a response string. -/
def parse_action_name (response : String) : Option String :=
  parse_action_name_chars response.toList

/-- The ReAct loop of `CompensationReActAgent.run` (agent.py lines 158-252),
one recursive step per `for` iteration; the `Nat` argument counts remaining
iterations.  Polymorphic in the structure type `σ` and parametric in the
pieces whose implementation is pure text/JSON plumbing outside the control
flow: the reasoning backend, `_extract_final_answer`, `_validate_structure`,
the two long corrective-feedback texts (agent.py lines 185-197 and 211-224),
and the tool dispatch (the Action-Input extraction of `_parse_action` composed
with `_execute_tool`, given the parsed action name, the raw response and the
current structure).  The assistant/user message pairs are appended exactly as
the source appends them, and each raw response is recorded in the trace. -/
def agent_loop {σ : Type}
    (backend : List Message → String)
    (extract_final : String → Option σ)
    (validate : σ → Option String)
    (validation_feedback : String → String)
    (parse_feedback : String)
    (exec_tool : String → String → σ → String × σ)
    (messages : List Message) (current : σ) (iteration : Nat) (trace : List String) :
    Nat → AgentResult σ
  | 0 => { compensated_structure := current, log := ["达到最大迭代次数 10"], trace := trace }
  | remaining + 1 =>
    let response := backend messages
    if "Final Answer:".toList <:+: response.toList then
      match extract_final response with
      | some final =>
        match validate final with
        | none =>
          { compensated_structure := final,
            log := ["Agent 完成,共 " ++ toString iteration ++ " 次迭代"],
            trace := trace ++ [response] }
        | some err =>
          agent_loop backend extract_final validate validation_feedback parse_feedback
            exec_tool
            (messages ++ [⟨"assistant", response⟩, ⟨"user", validation_feedback err⟩])
            current (iteration + 1) (trace ++ [response]) remaining
      | none =>
        agent_loop backend extract_final validate validation_feedback parse_feedback
          exec_tool
          (messages ++ [⟨"assistant", response⟩, ⟨"user", parse_feedback⟩])
          current (iteration + 1) (trace ++ [response]) remaining
    else
      match parse_action_name response with
      | none =>
        agent_loop backend extract_final validate validation_feedback parse_feedback
          exec_tool
          (messages ++ [⟨"assistant", response⟩,
                        ⟨"user", "请继续,使用工具或返回 Final Answer"⟩])
          current (iteration + 1) (trace ++ [response]) remaining
      | some name =>
        let r := exec_tool name response current
        agent_loop backend extract_final validate validation_feedback parse_feedback
          exec_tool
          (messages ++ [⟨"assistant", response⟩,
                        ⟨"user", "Observation: " ++ r.1 ++ "\n\n请继续分析,或返回 Final Answer。"⟩])
          r.2 (iteration + 1) (trace ++ [response]) remaining

/-- `CompensationReActAgent.run` (agent.py lines 110-255): build the initial
system/user message pair (the literal prompt texts are parameters; their
content never influences the control flow, and `user_prompt` models the
f-string embedding the JSON-serialized input) and run at most 10 iterations
(`max_iterations = 10`) starting from iteration 1 with the input structure as
the current structure (`extraction_result.copy()` is a shallow list copy,
i.e. the same value). -/
def agent_run {σ : Type}
    (backend : List Message → String)
    (extract_final : String → Option σ)
    (validate : σ → Option String)
    (validation_feedback : String → String)
    (parse_feedback : String)
    (exec_tool : String → String → σ → String × σ)
    (system_prompt : String) (user_prompt : σ → String)
    (extraction : σ) : AgentResult σ :=
  agent_loop backend extract_final validate validation_feedback parse_feedback exec_tool
    [⟨"system", system_prompt⟩, ⟨"user", user_prompt extraction⟩] extraction 1 [] 10

/-! ## Theorems -/

theorem extract_view_nil (T : String) : extract_view [] T = [] := by
  simp [extract_view]

theorem extract_view_cons (n : CatalogNode) (rest : List CatalogNode) (T : String) :
    extract_view (n :: rest) T =
      if should_include n T then copy_node n T :: extract_view rest T
      else extract_view rest T := by
  rw [extract_view]
  rfl

/-- Claim C2, counterexample:  On the spec scenario input, `extract_view` for
target `"technical"` does NOT produce a node with `category` set to
`"unknown"`: the copy carries over only the fields the input node has, and the
input 商务标 node has no `category` field, so the output node has none
either. -/
theorem c2_counterexample :
    extract_view
        [CatalogNode.mk "商务标" none []
          (some [CatalogNode.mk "投标函" (some "business") [] none])] "technical"
      ≠ [CatalogNode.mk "商务标" (some "unknown") [] (some [])] := by
  have h : extract_view
      [CatalogNode.mk "商务标" none []
        (some [CatalogNode.mk "投标函" (some "business") [] none])] "technical"
      = [CatalogNode.mk "商务标" none [] (some [])] := by
    simp [extract_view, should_include, classify_node, valid_categories,
      CatalogNode.category, CatalogNode.name, CatalogNode.extra, CatalogNode.children]
  rw [h]
  intro hc
  simp at hc

/-- Claim C2, amended:  Classifying
`[{"name":"商务标","children":[{"name":"投标函","category":"business"}]}]`
for target `"technical"` yields exactly `[{"name":"商务标","children":[]}]`:
the parent is included via the conservative unknown-inclusion rule, the
wrong-category child is pruned, and `children` is set to the empty sequence
rather than omitted — but no `category` field is added to the output node
(the category merely *resolves* to unknown during classification). -/
theorem c2_amended :
    extract_view
        [CatalogNode.mk "商务标" none []
          (some [CatalogNode.mk "投标函" (some "business") [] none])] "technical"
      = [CatalogNode.mk "商务标" none [] (some [])] := by
  simp [extract_view, should_include, classify_node, valid_categories,
    CatalogNode.category, CatalogNode.name, CatalogNode.extra, CatalogNode.children]

/-- Claim C6:  The validator returns a list of structural errors with empty
meaning valid: on `[]` it returns one error, the must-not-be-empty message
(whose text contains 空, "empty"); on `[{"name":"x"}]` it returns the empty
error list; on `[{"children":[]}]` it returns exactly one error, which names
the missing `name` field. -/
theorem validate_structure_cases :
    validate_structure (.arr []) = ["结构不能为空"]
    ∧ "空".toList <:+: "结构不能为空".toList
    ∧ validate_structure (.arr [.obj [("name", .str "x")]]) = []
    ∧ validate_structure (.arr [.obj [("children", .arr [])]])
        = ["root/node0: 缺少 name 字段"]
    ∧ "name".toList <:+: "root/node0: 缺少 name 字段".toList := by
  refine ⟨by simp [validate_structure], by decide, ?_, ?_, by decide⟩
  · simp [validate_structure, validate_node, List.lookup, List.enum]
  · simp [validate_structure, validate_node, validate_children, List.lookup, List.enum]
    rfl

/-- Claim C10:  `update_node_category` with a category outside
business/technical/pricing — in particular `"mixed"` or `"unknown"` — returns
`success = false` with the invalid-category error, with no updated structure
and no message: the category gate fires before any copying, path resolution
or annotation, and the input is left untouched. -/
theorem update_node_category_invalid (struct : CatalogNode) (node_path category : String)
    (h : category ∉ (["business", "technical", "pricing"] : List String)) :
    update_node_category_run struct node_path category =
      { success := false, updated_structure := none, message := none,
        error := some ("无效的类别: " ++ category ++ ",必须是 business/technical/pricing 之一") } := by
  simp [update_node_category_run, h]

theorem update_node_category_invalid_witness :
    update_node_category_run
        (CatalogNode.mk "root" none [] (some [CatalogNode.mk "A" none [] (some [])]))
        "root/A" "mixed"
      = { success := false, updated_structure := none, message := none,
          error := some ("无效的类别: mixed,必须是 business/technical/pricing 之一") } :=
  update_node_category_invalid _ _ _ (by decide)

/-- Claim C5:  When the extraction result is absent (`None`) or the empty list,
the orchestrator synthesizes the structure from the three default templates —
business, technical, pricing, in that order, one provider call each — tags it
`source = "default_template"`, and returns without raising; the right-hand
side does not mention the agent parameter, so the reasoning backend is never
consulted. -/
theorem orchestrator_default_template
    (templates : List (String × JValue)) (agent : List JValue → List JValue × List String)
    (extraction : Option (List JValue)) (b t p : JValue)
    (hempty : extraction = none ∨ extraction = some [])
    (hb : templates.lookup "business_template" = some b)
    (ht : templates.lookup "technical_template" = some t)
    (hp : templates.lookup "pricing_template" = some p) :
    orchestrator_run templates agent extraction =
      some { compensated_structure := [b, t, p], source := "default_template",
             log := ["检测结果: 为空", "提取结果为空,使用默认三段式模板"] } := by
  have eb : ("business" ++ "_template" : String) = "business_template" := rfl
  have et : ("technical" ++ "_template" : String) = "technical_template" := rfl
  have ep : ("pricing" ++ "_template" : String) = "pricing_template" := rfl
  rcases hempty with h | h <;> subst h <;>
    simp [orchestrator_run, get_default_structure, get_default_template_run,
      eb, et, ep, hb, ht, hp]

theorem orchestrator_default_template_witness :
    orchestrator_run
        [("business_template", JValue.str "B"), ("technical_template", JValue.str "T"),
         ("pricing_template", JValue.str "P")]
        (fun l => (l, [])) none
      = some { compensated_structure := [JValue.str "B", JValue.str "T", JValue.str "P"],
               source := "default_template",
               log := ["检测结果: 为空", "提取结果为空,使用默认三段式模板"] } :=
  orchestrator_default_template _ _ _ _ _ _ (Or.inl rfl) (by simp [List.lookup])
    (by simp [List.lookup]) (by simp [List.lookup])

theorem agent_loop_stalls {σ : Type}
    (backend : List Message → String) (extract_final : String → Option σ)
    (validate : σ → Option String) (vf : String → String) (pf : String)
    (et : String → String → σ → String × σ)
    (hfa : ∀ msgs, ¬ ("Final Answer".toList <:+: (backend msgs).toList))
    (hact : ∀ msgs, parse_action_name (backend msgs) = none) :
    ∀ (k : Nat) (messages : List Message) (current : σ) (iteration : Nat)
      (trace : List String),
      (agent_loop backend extract_final validate vf pf et messages current iteration trace
          k).compensated_structure = current
      ∧ (agent_loop backend extract_final validate vf pf et messages current iteration trace
          k).log = ["达到最大迭代次数 10"]
      ∧ (agent_loop backend extract_final validate vf pf et messages current iteration trace
          k).trace.length = trace.length + k := by
  intro k
  induction k with
  | zero => intro messages current iteration trace; exact ⟨rfl, rfl, rfl⟩
  | succ k ih =>
    intro messages current iteration trace
    have hno : ¬ ("Final Answer:".toList <:+: (backend messages).toList) := by
      intro hc
      exact hfa messages ((by decide : "Final Answer".toList <:+: "Final Answer:".toList).trans hc)
    rw [agent_loop]
    rw [if_neg hno, hact messages]
    have h := ih (messages ++ [⟨"assistant", backend messages⟩,
      ⟨"user", "请继续,使用工具或返回 Final Answer"⟩]) current (iteration + 1)
      (trace ++ [backend messages])
    refine ⟨h.1, h.2.1, ?_⟩
    rw [h.2.2]
    simp
    omega

/-- Claim C4:  If the reasoning backend never emits "Final Answer" and never
emits a parseable "Action:" marker, the repair loop makes exactly 10 backend
calls (the trace records one response per iteration), then terminates by
budget exhaustion: the result carries the original input structure unchanged
and the max-iterations log tag, and — the model being a total function — no
error is raised. -/
theorem agent_run_budget_exhaustion {σ : Type}
    (backend : List Message → String) (extract_final : String → Option σ)
    (validate : σ → Option String) (vf : String → String) (pf : String)
    (et : String → String → σ → String × σ)
    (system_prompt : String) (user_prompt : σ → String) (extraction : σ)
    (hfa : ∀ msgs, ¬ ("Final Answer".toList <:+: (backend msgs).toList))
    (hact : ∀ msgs, parse_action_name (backend msgs) = none) :
    (agent_run backend extract_final validate vf pf et system_prompt user_prompt
        extraction).compensated_structure = extraction
    ∧ (agent_run backend extract_final validate vf pf et system_prompt user_prompt
        extraction).log = ["达到最大迭代次数 10"]
    ∧ (agent_run backend extract_final validate vf pf et system_prompt user_prompt
        extraction).trace.length = 10 :=
  agent_loop_stalls backend extract_final validate vf pf et hfa hact 10 _ extraction 1 []

theorem agent_run_budget_exhaustion_witness :
    (agent_run (fun _ => "thinking...") (fun _ => none) (fun _ => none) (fun e => e) ""
        (fun _ _ s => ("", s)) "sys" (fun _ => "user")
        [CatalogNode.mk "商务标" none [] (some [])]).compensated_structure
      = [CatalogNode.mk "商务标" none [] (some [])]
    ∧ (agent_run (fun _ => "thinking...") (fun _ => none) (fun _ => none) (fun e => e) ""
        (fun _ _ s => ("", s)) "sys" (fun _ => "user")
        [CatalogNode.mk "商务标" none [] (some [])]).log = ["达到最大迭代次数 10"]
    ∧ (agent_run (fun _ => "thinking...") (fun _ => none) (fun _ => none) (fun e => e) ""
        (fun _ _ s => ("", s)) "sys" (fun _ => "user")
        [CatalogNode.mk "商务标" none [] (some [])]).trace.length = 10 :=
  agent_run_budget_exhaustion _ _ _ _ _ _ _ _ _
    (fun _ => by decide) (fun _ => by decide)

theorem copy_node_category (n : CatalogNode) (T : String) :
    (copy_node n T).category = n.category := by
  rcases n with ⟨nm, c, e, ch⟩
  rfl

theorem extract_view_mem_iff : ∀ (F : List CatalogNode) (T : String) (x : CatalogNode),
    x ∈ extract_view F T ↔ ∃ n, n ∈ F ∧ should_include n T = true ∧ x = copy_node n T := by
  intro F T x
  induction F with
  | nil => simp [extract_view_nil]
  | cons n rest ih =>
    rw [extract_view_cons]
    by_cases h : should_include n T = true
    · rw [if_pos h]
      simp only [List.mem_cons, ih]
      constructor
      · rintro (rfl | ⟨m, hm, hi, rfl⟩)
        · exact ⟨n, Or.inl rfl, h, rfl⟩
        · exact ⟨m, Or.inr hm, hi, rfl⟩
      · rintro ⟨m, (rfl | hm), hi, rfl⟩
        · exact Or.inl rfl
        · exact Or.inr ⟨m, hm, hi, rfl⟩
    · rw [if_neg h, ih]
      constructor
      · rintro ⟨m, hm, hi, rfl⟩
        exact ⟨m, List.mem_cons_of_mem _ hm, hi, rfl⟩
      · rintro ⟨m, hm, hi, rfl⟩
        rcases List.mem_cons.mp hm with rfl | hm'
        · exact absurd hi h
        · exact ⟨m, hm', hi, rfl⟩

/-- Claim C1:  A node of the forest is included in the output of `extract_view` for
target `T` (as the copy `extract_view` builds for it) exactly when its
category resolves to `T`, `"mixed"`, or `"unknown"`; the resolution treats an
absent category or one outside the five known values as `"unknown"`
(`classify_node`).  Consequently every node whose category is `"mixed"` or
unset appears, as a copy, in all three views of `classify_and_split`.  The
same statement applied to the children list of a node covers every recursively
visited node, since `extract_view` recurses with the same rule. -/
theorem extract_view_inclusion (F : List CatalogNode) (T : String) (n : CatalogNode)
    (hn : n ∈ F) :
    (copy_node n T ∈ extract_view F T ↔ should_include n T = true)
    ∧ (should_include n T = true ↔
        (classify_node n = T ∨ classify_node n = "mixed" ∨ classify_node n = "unknown"))
    ∧ ((n.category = none ∨ n.category = some "mixed") →
        copy_node n "business" ∈ (classify_and_split F).business
        ∧ copy_node n "technical" ∈ (classify_and_split F).technical
        ∧ copy_node n "pricing" ∈ (classify_and_split F).pricing) := by
  refine ⟨?_, ?_, ?_⟩
  · rw [extract_view_mem_iff]
    constructor
    · rintro ⟨m, _, hi, he⟩
      have hc : (copy_node n T).category = (copy_node m T).category := by rw [he]
      rw [copy_node_category, copy_node_category] at hc
      have hs : should_include n T = should_include m T := by
        simp [should_include, classify_node, hc]
      rw [hs]
      exact hi
    · intro hi
      exact ⟨n, hn, hi, rfl⟩
  · simp [should_include]
    tauto
  · intro hcat
    have hu : classify_node n = "mixed" ∨ classify_node n = "unknown" := by
      rcases hcat with h | h
      · right
        simp [classify_node, h]
      · left
        simp [classify_node, h, valid_categories]
    have hin : ∀ T' : String, should_include n T' = true := by
      intro T'
      rcases hu with h | h <;> simp [should_include, h]
    exact ⟨(extract_view_mem_iff F "business" _).mpr ⟨n, hn, hin _, rfl⟩,
           (extract_view_mem_iff F "technical" _).mpr ⟨n, hn, hin _, rfl⟩,
           (extract_view_mem_iff F "pricing" _).mpr ⟨n, hn, hin _, rfl⟩⟩

theorem extract_view_inclusion_witness :
    copy_node (CatalogNode.mk "混合" (some "mixed") [] none) "technical"
      ∈ extract_view [CatalogNode.mk "混合" (some "mixed") [] none] "technical" :=
  ((extract_view_inclusion [CatalogNode.mk "混合" (some "mixed") [] none] "technical"
      (CatalogNode.mk "混合" (some "mixed") [] none) (List.mem_singleton.mpr rfl)).1).mpr
    (by decide)

theorem extract_view_idem : ∀ (T : String) (F : List CatalogNode),
    extract_view (extract_view F T) T = extract_view F T
  | T, [] => by simp [extract_view_nil]
  | T, n :: rest => by
    rw [extract_view_cons]
    by_cases h : should_include n T = true
    · rw [if_pos h, extract_view_cons]
      have hc : should_include (copy_node n T) T = true := by
        simpa [should_include, classify_node, copy_node_category] using h
      rw [if_pos hc]
      have h1 : copy_node (copy_node n T) T = copy_node n T := by
        rcases n with ⟨nm, c, e, ch⟩
        simp only [copy_node, CatalogNode.children, CatalogNode.name, CatalogNode.category,
          CatalogNode.extra, Option.getD_some, CatalogNode.mk.injEq, Option.some.injEq,
          true_and]
        exact extract_view_idem T (ch.getD [])
      rw [h1, extract_view_idem T rest]
    · rw [if_neg h, extract_view_idem T rest]
termination_by T F => sizeOf F
decreasing_by
  all_goals first
    | exact Nat.lt_trans (CatalogNode.sizeOf_children_lt _) (by simp; omega)
    | exact Nat.lt_trans (sizeOf_getD_lt _) (by simp; omega)
    | (simp; try omega)

/-- Claim C7:  `classify_and_split` is idempotent on its own views: re-running
the classifier on the `"business"` output with target `"business"` — whether
through `extract_view` directly or through `classify_and_split` — returns
that output unchanged, because the copy preserves the category field of
every node. -/
theorem classify_and_split_business_idempotent (F : List CatalogNode) :
    extract_view ((classify_and_split F).business) "business" = (classify_and_split F).business
    ∧ (classify_and_split ((classify_and_split F).business)).business
        = (classify_and_split F).business :=
  ⟨extract_view_idem "business" F, extract_view_idem "business" F⟩

theorem extract_view_children_present : ∀ (F : List CatalogNode) (T : String),
    children_present (extract_view F T) = true
  | [], T => by simp [extract_view_nil, children_present]
  | n :: rest, T => by
    rw [extract_view_cons]
    by_cases h : should_include n T = true
    · rw [if_pos h, children_present]
      simp only [copy_node, CatalogNode.children, Option.getD_some, Option.isSome_some,
        Bool.true_and, Bool.and_eq_true]
      exact ⟨extract_view_children_present (n.children.getD []) T,
             extract_view_children_present rest T⟩
    · rw [if_neg h]
      exact extract_view_children_present rest T
termination_by F T => sizeOf F
decreasing_by
  all_goals first
    | exact Nat.lt_trans (CatalogNode.sizeOf_children_lt _) (by simp; omega)
    | exact Nat.lt_trans (sizeOf_getD_lt _) (by simp; omega)
    | (simp; try omega)

/-- Claim C8:  Every node of every forest produced by `extract_view` — in
particular of each of the three views of `classify_and_split` — carries a
`children` field that is present and is a sequence (the copy always stores a
list there, the empty list when the node had no children or the recursive
filter removed them all; never omitted, never null). -/
theorem classify_and_split_all_children_present (F : List CatalogNode) (T : String) :
    children_present (extract_view F T) = true
    ∧ children_present ((classify_and_split F).business) = true
    ∧ children_present ((classify_and_split F).technical) = true
    ∧ children_present ((classify_and_split F).pricing) = true :=
  ⟨extract_view_children_present F T, extract_view_children_present F "business",
   extract_view_children_present F "technical", extract_view_children_present F "pricing"⟩

theorem plug_append (t : CatalogNode) (a b : List Frame) :
    plug t (a ++ b) = plug (plug t a) b := by
  induction a generalizing t with
  | nil => rfl
  | cons fr rest ih => rw [List.cons_append, plug, plug, ih]

mutual

theorem deep_copy_normalized : ∀ (node : CatalogNode), normalized node = true →
    deep_copy node = node
  | .mk nm c e none, h => by
    rw [normalized] at h
    cases h
  | .mk nm c e (some l), h => by
    rw [normalized] at h
    rw [deep_copy, deep_copy_list_normalized l h]
termination_by node _ => sizeOf node

theorem deep_copy_list_normalized : ∀ (l : List CatalogNode), normalized_list l = true →
    deep_copy_list l = l
  | [], _ => by rw [deep_copy_list]
  | c :: cs, h => by
    rw [normalized_list] at h
    obtain ⟨h1, h2⟩ := Bool.and_eq_true_iff.mp h
    rw [deep_copy_list, deep_copy_normalized c h1, deep_copy_list_normalized cs h2]
termination_by l _ => sizeOf l

end

theorem annotate_preserves_name (node : CatalogNode) (category : String) :
    (annotate_node_and_children node category).name = node.name := by
  rcases node with ⟨nm, c, e, _ | l⟩
  all_goals rw [annotate_node_and_children]
  all_goals rfl

mutual

theorem annotate_all_category : ∀ (node : CatalogNode) (category : String),
    all_category (annotate_node_and_children node category) category = true
  | .mk nm c e none, category => by
    rw [annotate_node_and_children, all_category]
    simp
  | .mk nm c e (some l), category => by
    rw [annotate_node_and_children, all_category]
    simp [annotate_list_all_category l category]
termination_by node _ => sizeOf node

theorem annotate_list_all_category : ∀ (l : List CatalogNode) (category : String),
    all_category_list (annotate_list l category) category = true
  | [], category => by rw [annotate_list, all_category_list]
  | c :: cs, category => by
    rw [annotate_list, all_category_list]
    simp [annotate_all_category c category, annotate_list_all_category cs category]
termination_by l _ => sizeOf l

end

theorem find_child_none_update (l : List CatalogNode) (part : String)
    (go : CatalogNode → Option (CatalogNode × CatalogNode))
    (h : find_child l part = none) : update_child l part go = none := by
  induction l with
  | nil => rw [update_child]
  | cons c cs ih =>
    rw [find_child] at h
    rw [update_child]
    by_cases hc : c.name = part
    · rw [if_pos hc] at h
      cases h
    · rw [if_neg hc] at h
      rw [if_neg hc, ih h]

theorem find_child_some_update_none_iff (l : List CatalogNode) (part : String)
    (go : CatalogNode → Option (CatalogNode × CatalogNode)) (c : CatalogNode)
    (h : find_child l part = some c) :
    (update_child l part go = none ↔ go c = none) := by
  induction l with
  | nil => rw [find_child] at h; cases h
  | cons d ds ih =>
    rw [find_child] at h
    rw [update_child]
    by_cases hd : d.name = part
    · rw [if_pos hd] at h
      injection h with hdc
      subst hdc
      rw [if_pos hd]
      cases hgo : go d with
      | none => simp [hgo]
      | some r =>
        rcases r with ⟨a, b⟩
        simp [hgo]
    · rw [if_neg hd] at h
      rw [if_neg hd]
      rw [← ih h]
      cases hu : update_child ds part go with
      | none => simp [hu]
      | some p =>
        rcases p with ⟨a, b⟩
        simp [hu]

theorem update_child_sound (l : List CatalogNode) (part : String)
    (go : CatalogNode → Option (CatalogNode × CatalogNode)) :
    ∀ (l' : List CatalogNode) (t : CatalogNode),
      update_child l part go = some (l', t) →
      ∃ left c right r, l = left ++ c :: right ∧ find_child l part = some c
        ∧ go c = some r ∧ l' = left ++ r.1 :: right ∧ t = r.2 := by
  induction l with
  | nil =>
    intro l' t h
    rw [update_child] at h
    cases h
  | cons d ds ih =>
    intro l' t h
    rw [update_child] at h
    by_cases hd : d.name = part
    · rw [if_pos hd] at h
      cases hgo : go d with
      | none => rw [hgo] at h; cases h
      | some r =>
        rw [hgo] at h
        rcases r with ⟨c', t'⟩
        simp only [Option.some.injEq, Prod.mk.injEq] at h
        obtain ⟨hl', ht⟩ := h
        exact ⟨[], d, ds, (c', t'), rfl, by rw [find_child, if_pos hd], hgo,
          by rw [← hl']; rfl, ht.symm⟩
    · rw [if_neg hd] at h
      cases hu : update_child ds part go with
      | none => rw [hu] at h; cases h
      | some p =>
        rw [hu] at h
        rcases p with ⟨ds', t'⟩
        simp only [Option.some.injEq, Prod.mk.injEq] at h
        obtain ⟨hl', ht⟩ := h
        obtain ⟨left, c, right, r, hds, hfc, hgo, hds', htr⟩ := ih ds' t' hu
        refine ⟨d :: left, c, right, r, by rw [hds, List.cons_append], ?_, hgo, ?_, ?_⟩
        · rw [find_child, if_neg hd]
          exact hfc
        · rw [← hl', hds', List.cons_append]
        · rw [← ht, htr]

theorem walk_update_none_iff (f : CatalogNode → CatalogNode) :
    ∀ (parts : List String) (cur : CatalogNode),
      (walk_update cur parts f = none ↔ find_walk cur parts = none)
  | [], cur => by
    rw [walk_update, find_walk]
    simp
  | part :: rest, cur => by
    rw [walk_update, find_walk]
    by_cases hroot : part = "root"
    · rw [if_pos hroot, if_pos hroot]
      exact walk_update_none_iff f rest cur
    · rw [if_neg hroot, if_neg hroot]
      cases hfc : find_child (cur.children.getD []) part with
      | none =>
        rw [find_child_none_update _ _ _ hfc]
        simp
      | some c =>
        have hiff := find_child_some_update_none_iff (cur.children.getD []) part
          (fun x => walk_update x rest f) c hfc
        have hrec := walk_update_none_iff f rest c
        cases hu : update_child (cur.children.getD []) part (fun x => walk_update x rest f) with
        | none =>
          have hres : find_walk c rest = none := hrec.mp (hiff.mp hu)
          simp [hu, hres]
        | some p =>
          rcases p with ⟨l', t⟩
          have hne : ¬ find_walk c rest = none := by
            intro hh
            rw [hiff.mpr (hrec.mpr hh)] at hu
            cases hu
          simp [hu, hne]

theorem walk_update_sound (f : CatalogNode → CatalogNode) :
    ∀ (parts : List String) (cur s' t : CatalogNode),
      walk_update cur parts f = some (s', t) →
      ∃ frames tgt, find_walk cur parts = some tgt ∧ cur = plug tgt frames
        ∧ s' = plug (f tgt) frames ∧ t = f tgt
  | [], cur, s', t, h => by
    rw [walk_update] at h
    simp only [Option.some.injEq, Prod.mk.injEq] at h
    exact ⟨[], cur, by rw [find_walk], rfl, h.1.symm, h.2.symm⟩
  | part :: rest, cur, s', t, h => by
    rw [walk_update] at h
    by_cases hroot : part = "root"
    · rw [if_pos hroot] at h
      obtain ⟨frames, tgt, h1, h2, h3, h4⟩ := walk_update_sound f rest cur s' t h
      exact ⟨frames, tgt, by rw [find_walk, if_pos hroot]; exact h1, h2, h3, h4⟩
    · rw [if_neg hroot] at h
      cases hu : update_child (cur.children.getD []) part (fun x => walk_update x rest f) with
      | none => rw [hu] at h; cases h
      | some p =>
        rcases p with ⟨l', t'⟩
        rw [hu] at h
        simp only [Option.some.injEq, Prod.mk.injEq] at h
        obtain ⟨hs', ht⟩ := h
        obtain ⟨left, c, right, r, hl, hfc, hgo, hl', htr⟩ :=
          update_child_sound _ _ _ _ _ hu
        obtain ⟨frames, tgt, hfw, hc, hr1, hr2⟩ :=
          walk_update_sound f rest c r.1 r.2 (by rw [hgo])
        rcases cur with ⟨nm, cc, e, ch⟩
        have hch : ch = some (left ++ c :: right) := by
          rcases ch with _ | l0
          · rw [show ((CatalogNode.mk nm cc e none).children.getD []) = ([] : List CatalogNode)
              from rfl] at hl
            cases left <;> cases hl
          · rw [show ((CatalogNode.mk nm cc e (some l0)).children.getD []) = l0 from rfl] at hl
            rw [hl]
        subst hch
        refine ⟨frames ++ [⟨nm, cc, e, left, right⟩], tgt, ?_, ?_, ?_, ?_⟩
        · rw [find_walk, if_neg hroot]
          rw [show ((CatalogNode.mk nm cc e (some (left ++ c :: right))).children.getD [])
            = left ++ c :: right from rfl] at hfc ⊢
          rw [hfc]
          exact hfw
        · rw [plug_append, ← hc]
          rfl
        · rw [plug_append, ← hr1, ← hs', hl']
          rfl
        · rw [← ht, htr, hr2]

theorem toList_infix_4 (a b c d : String) : b.toList <:+: (a ++ b ++ c ++ d).toList := by
  refine ⟨a.toList, (c ++ d).toList, ?_⟩
  simp only [String.toList, String.data_append, List.append_assoc]

theorem update_run_not_found (s : CatalogNode) (path category : String)
    (hcat : category ∈ (["business", "technical", "pricing"] : List String))
    (hnorm : normalized s = true)
    (hfind : find_node_by_path s path = none) :
    update_node_category_run s path category =
      { success := false, updated_structure := none, message := none,
        error := some ("未找到节点: " ++ path) } := by
  by_cases hb : path = "" ∨ path = "root"
  · rw [find_node_by_path, if_pos hb] at hfind
    cases hfind
  · rw [find_node_by_path, if_neg hb] at hfind
    have hw : walk_update s (path_split path)
        (fun n => annotate_node_and_children n category) = none :=
      (walk_update_none_iff _ (path_split path) s).mpr hfind
    simp only [update_node_category_run, if_neg (not_not_intro hcat),
      deep_copy_normalized s hnorm, if_neg hb, hw]

/-- Claim C3:  For a normalized structure (`children` present at every node, as
the spec data model licenses by declaring absence and empty equivalent), every resolvable
path, and every accepted category: the run succeeds, the result decomposes as
the SAME one-hole context (ancestor fields and left/right siblings untouched,
hence every node outside the target subtree keeps all of its fields) with the
target subtree replaced by its fully annotated version (the category set on
the target and every descendant), and the success message contains the name of
the target node.  If any path segment fails to resolve, the tool returns the
failure result instead. -/
theorem update_node_category_frame (s : CatalogNode) (node_path category : String)
    (hcat : category ∈ (["business", "technical", "pricing"] : List String))
    (hnorm : normalized s = true) :
    (∀ tgt, find_node_by_path s node_path = some tgt →
        ∃ frames,
          s = plug tgt frames
          ∧ update_node_category_run s node_path category =
              { success := true,
                updated_structure :=
                  some (plug (annotate_node_and_children tgt category) frames),
                message := some ("已将节点 \x27" ++ tgt.name
                  ++ "\x27 及其子节点标注为 " ++ category),
                error := none }
          ∧ all_category (annotate_node_and_children tgt category) category = true
          ∧ tgt.name.toList <:+:
              ("已将节点 \x27" ++ tgt.name ++ "\x27 及其子节点标注为 " ++ category).toList)
    ∧ (find_node_by_path s node_path = none →
        update_node_category_run s node_path category =
          { success := false, updated_structure := none, message := none,
            error := some ("未找到节点: " ++ node_path) }) := by
  constructor
  · intro tgt hfind
    by_cases hb : node_path = "" ∨ node_path = "root"
    · rw [find_node_by_path, if_pos hb] at hfind
      injection hfind with hs
      subst hs
      refine ⟨[], rfl, ?_, annotate_all_category _ _, toList_infix_4 _ _ _ _⟩
      simp only [update_node_category_run, if_neg (not_not_intro hcat),
        deep_copy_normalized s hnorm, if_pos hb, walk_update]
      simp [plug, annotate_preserves_name]
    · rw [find_node_by_path, if_neg hb] at hfind
      have hwne : ¬ walk_update s (path_split node_path)
          (fun n => annotate_node_and_children n category) = none := by
        intro hh
        rw [(walk_update_none_iff _ _ _).mp hh] at hfind
        cases hfind
      cases hw : walk_update s (path_split node_path)
          (fun n => annotate_node_and_children n category) with
      | none => exact absurd hw hwne
      | some p =>
        rcases p with ⟨s', t⟩
        obtain ⟨frames, tgt', hfw, hplug, hs', ht⟩ := walk_update_sound _ _ _ _ _ hw
        rw [hfw] at hfind
        injection hfind with htgt
        subst htgt
        refine ⟨frames, hplug, ?_, annotate_all_category _ _, toList_infix_4 _ _ _ _⟩
        simp only [update_node_category_run, if_neg (not_not_intro hcat),
          deep_copy_normalized s hnorm, if_neg hb, hw]
        simp [hs', ht, annotate_preserves_name]
  · intro hfind
    exact update_run_not_found s node_path category hcat hnorm hfind

theorem update_node_category_frame_witness :
    ∃ frames,
      CatalogNode.mk "root" none []
          (some [CatalogNode.mk "A" none []
                   (some [CatalogNode.mk "B" none []
                            (some [CatalogNode.mk "D" none [] (some [])])]),
                 CatalogNode.mk "C" none [] (some [])])
        = plug (CatalogNode.mk "B" none []
                  (some [CatalogNode.mk "D" none [] (some [])])) frames
      ∧ update_node_category_run
            (CatalogNode.mk "root" none []
              (some [CatalogNode.mk "A" none []
                       (some [CatalogNode.mk "B" none []
                                (some [CatalogNode.mk "D" none [] (some [])])]),
                     CatalogNode.mk "C" none [] (some [])]))
            "root/A/B" "technical" =
          { success := true,
            updated_structure :=
              some (plug (annotate_node_and_children
                (CatalogNode.mk "B" none []
                  (some [CatalogNode.mk "D" none [] (some [])])) "technical") frames),
            message := some ("已将节点 \x27" ++
              (CatalogNode.mk "B" none []
                (some [CatalogNode.mk "D" none [] (some [])])).name
              ++ "\x27 及其子节点标注为 " ++ "technical"),
            error := none }
      ∧ all_category (annotate_node_and_children
            (CatalogNode.mk "B" none []
              (some [CatalogNode.mk "D" none [] (some [])])) "technical") "technical" = true
      ∧ (CatalogNode.mk "B" none []
            (some [CatalogNode.mk "D" none [] (some [])])).name.toList <:+:
          ("已将节点 \x27" ++
            (CatalogNode.mk "B" none []
              (some [CatalogNode.mk "D" none [] (some [])])).name
            ++ "\x27 及其子节点标注为 " ++ "technical").toList :=
  (update_node_category_frame
      (CatalogNode.mk "root" none []
        (some [CatalogNode.mk "A" none []
                 (some [CatalogNode.mk "B" none []
                          (some [CatalogNode.mk "D" none [] (some [])])]),
               CatalogNode.mk "C" none [] (some [])]))
      "root/A/B" "technical" (by decide)
      (by simp [normalized, normalized_list])).1
    (CatalogNode.mk "B" none [] (some [CatalogNode.mk "D" none [] (some [])])) rfl

/-- Claim C9, counterexample:  The source skips EVERY path segment equal to
`"root"`, not only the conventional leading one: on a structure whose child
is literally named `root`, the path `root/root` resolves to the whole
structure — the exact-name walk of the claim (after skipping only the leading
`root`) would have selected the child instead. -/
theorem c9_counterexample :
    find_node_by_path
        (CatalogNode.mk "root" none []
          (some [CatalogNode.mk "root" (some "business") [] (some [])]))
        "root/root"
      = some (CatalogNode.mk "root" none []
          (some [CatalogNode.mk "root" (some "business") [] (some [])]))
    ∧ ¬ (find_node_by_path
          (CatalogNode.mk "root" none []
            (some [CatalogNode.mk "root" (some "business") [] (some [])]))
          "root/root"
        = some (CatalogNode.mk "root" (some "business") [] (some []))) := by
  have h0 : find_node_by_path
      (CatalogNode.mk "root" none []
        (some [CatalogNode.mk "root" (some "business") [] (some [])]))
      "root/root"
      = some (CatalogNode.mk "root" none []
          (some [CatalogNode.mk "root" (some "business") [] (some [])])) := rfl
  refine ⟨h0, fun h => ?_⟩
  rw [h0] at h
  simp at h

theorem find_child_first (part : String) :
    ∀ (left : List CatalogNode) (c : CatalogNode) (right : List CatalogNode),
      (∀ x ∈ left, x.name ≠ part) → c.name = part →
      find_child (left ++ c :: right) part = some c := by
  intro left
  induction left with
  | nil =>
    intro c right _ hc
    rw [List.nil_append, find_child, if_pos hc]
  | cons d ds ih =>
    intro c right hl hc
    rw [List.cons_append, find_child, if_neg (hl d (List.mem_cons_self d ds))]
    exact ih c right (fun x hx => hl x (List.mem_cons_of_mem _ hx)) hc

theorem find_child_no_match (part : String) :
    ∀ (l : List CatalogNode), (∀ x ∈ l, x.name ≠ part) → find_child l part = none := by
  intro l
  induction l with
  | nil => intro _; rw [find_child]
  | cons d ds ih =>
    intro h
    rw [find_child, if_neg (h d (List.mem_cons_self d ds))]
    exact ih (fun x hx => h x (List.mem_cons_of_mem _ hx))

/-- Claim C9, amended:  Path resolution walks `children` by exact name match
at each slash-delimited segment, skipping every segment equal to `"root"`
(not only the conventional leading one — see the counterexample); among
duplicate sibling names the first matching child in sequence order is
selected deterministically; a segment matching no child makes resolution
fail, in which case `update_node_category` returns the failure result. -/
theorem find_node_by_path_resolution :
    (∀ (cur : CatalogNode) (rest : List String),
        find_walk cur ("root" :: rest) = find_walk cur rest)
    ∧ (∀ (part : String) (left : List CatalogNode) (c : CatalogNode)
        (right : List CatalogNode),
        (∀ x ∈ left, x.name ≠ part) → c.name = part →
        find_child (left ++ c :: right) part = some c)
    ∧ (∀ (cur : CatalogNode) (part : String) (rest : List String) (c : CatalogNode),
        part ≠ "root" → find_child (cur.children.getD []) part = some c →
        find_walk cur (part :: rest) = find_walk c rest)
    ∧ (∀ (cur : CatalogNode) (part : String) (rest : List String),
        part ≠ "root" → (∀ x ∈ cur.children.getD [], x.name ≠ part) →
        find_walk cur (part :: rest) = none)
    ∧ (∀ (s : CatalogNode) (path category : String),
        category ∈ (["business", "technical", "pricing"] : List String) →
        normalized s = true → find_node_by_path s path = none →
        update_node_category_run s path category =
          { success := false, updated_structure := none, message := none,
            error := some ("未找到节点: " ++ path) }) := by
  refine ⟨?_, find_child_first, ?_, ?_, ?_⟩
  · intro cur rest
    rw [find_walk, if_pos rfl]
  · intro cur part rest c hroot hfc
    rw [find_walk, if_neg hroot, hfc]
  · intro cur part rest hroot h
    rw [find_walk, if_neg hroot, find_child_no_match part _ h]
  · intro s path category hcat hnorm hfind
    exact update_run_not_found s path category hcat hnorm hfind

theorem find_node_by_path_resolution_witness :
    find_child
        [CatalogNode.mk "X" none [] (some []),
         CatalogNode.mk "B" (some "technical") [] (some []),
         CatalogNode.mk "B" (some "pricing") [] (some [])] "B"
      = some (CatalogNode.mk "B" (some "technical") [] (some [])) :=
  find_node_by_path_resolution.2.1 "B"
    [CatalogNode.mk "X" none [] (some [])]
    (CatalogNode.mk "B" (some "technical") [] (some []))
    [CatalogNode.mk "B" (some "pricing") [] (some [])]
    (by
      intro x hx
      simp at hx
      subst hx
      decide)
    (by decide)

end TenderBot
